import Mathlib

/-!
Verification of the rate-limiting and retry core of the autoblogger repository
(`src/security/rate_limiting.py` and `src/utils/retry.py` of the archived
old-system tree).

Time stamps, durations, rates and periods are modelled as rationals; Python
integers are modelled as `Int`.  Each Python method that reads the wall clock
receives the current time `now : ℚ` as an explicit argument; each stateful
method is embedded as a pure function from the object state (and `now`) to the
returned value and the updated state.
-/

/-- Python's `int(...)` conversion applied to a rational: truncation toward
zero (floor for nonnegative arguments, ceiling for negative ones). -/
def ratTrunc (q : ℚ) : ℤ :=
  if 0 ≤ q then ⌊q⌋ else -⌊-q⌋

/-- State of `RateLimiter` (token bucket) from `rate_limiting.py`:
fields `capacity`, `refill_rate`, `refill_period`, `tokens`, `last_refill`.
The constructor sets `tokens = capacity` and `last_refill = now`. -/
structure RateLimiter where
  capacity : ℤ
  refill_rate : ℚ
  refill_period : ℚ
  tokens : ℤ
  last_refill : ℚ
  deriving DecidableEq, Repr

/-- `RateLimiter.__init__`: full bucket, `last_refill` set to the current time. -/
def mkRateLimiter (capacity : ℤ) (refill_rate refill_period now : ℚ) : RateLimiter :=
  { capacity := capacity
    refill_rate := refill_rate
    refill_period := refill_period
    tokens := capacity
    last_refill := now }

/-- The refill step at the top of `RateLimiter.acquire` (lines 54-62):
if `elapsed >= refill_period` then
`tokens = min(capacity, tokens + int(elapsed / refill_period * refill_rate))`
and `last_refill = now`; otherwise the state is unchanged. -/
def RateLimiter.refill (s : RateLimiter) (now : ℚ) : RateLimiter :=
  let elapsed := now - s.last_refill
  if s.refill_period ≤ elapsed then
    let periods := elapsed / s.refill_period
    let tokens_to_add := ratTrunc (periods * s.refill_rate)
    { s with tokens := min s.capacity (s.tokens + tokens_to_add), last_refill := now }
  else
    s

/-- `RateLimiter.acquire` (lines 43-70): refill, then grant and deduct when
`tokens >= tokens_requested`, else deny without deducting. -/
def RateLimiter.acquire (s : RateLimiter) (now : ℚ) (req : ℤ) : Bool × RateLimiter :=
  let t := s.refill now
  if req ≤ t.tokens then
    (true, { t with tokens := t.tokens - req })
  else
    (false, t)

/-- `RateLimiter.get_wait_time` (lines 72-85). -/
def RateLimiter.get_wait_time (s : RateLimiter) : ℚ :=
  if 1 ≤ s.tokens then 0
  else ((1 - (s.tokens : ℚ)) / s.refill_rate) * s.refill_period

/-- `RateLimiter.reset` (lines 87-90). -/
def RateLimiter.reset (s : RateLimiter) (now : ℚ) : RateLimiter :=
  { s with tokens := s.capacity, last_refill := now }

@[simp] lemma RateLimiter.refill_capacity (s : RateLimiter) (now : ℚ) :
    (s.refill now).capacity = s.capacity := by
  unfold RateLimiter.refill
  dsimp only
  split <;> rfl

@[simp] lemma RateLimiter.refill_rate_eq (s : RateLimiter) (now : ℚ) :
    (s.refill now).refill_rate = s.refill_rate := by
  unfold RateLimiter.refill
  dsimp only
  split <;> rfl

@[simp] lemma RateLimiter.refill_period_eq (s : RateLimiter) (now : ℚ) :
    (s.refill now).refill_period = s.refill_period := by
  unfold RateLimiter.refill
  dsimp only
  split <;> rfl

@[simp] lemma RateLimiter.acquire_capacity (s : RateLimiter) (now : ℚ) (req : ℤ) :
    ((s.acquire now req).2).capacity = s.capacity := by
  unfold RateLimiter.acquire
  dsimp only
  split <;> simp

@[simp] lemma RateLimiter.acquire_rate_eq (s : RateLimiter) (now : ℚ) (req : ℤ) :
    ((s.acquire now req).2).refill_rate = s.refill_rate := by
  unfold RateLimiter.acquire
  dsimp only
  split <;> simp

@[simp] lemma RateLimiter.acquire_period_eq (s : RateLimiter) (now : ℚ) (req : ℤ) :
    ((s.acquire now req).2).refill_period = s.refill_period := by
  unfold RateLimiter.acquire
  dsimp only
  split <;> simp

lemma ratTrunc_nonneg {q : ℚ} (h : 0 ≤ q) : 0 ≤ ratTrunc q := by
  unfold ratTrunc
  rw [if_pos h]
  exact Int.floor_nonneg.mpr h

lemma ratTrunc_eq_floor {q : ℚ} (h : 0 ≤ q) : ratTrunc q = ⌊q⌋ := by
  unfold ratTrunc
  rw [if_pos h]

/-- When no full refill period has elapsed, the refill step is the identity. -/
lemma RateLimiter.refill_of_lt (s : RateLimiter) (now : ℚ)
    (h : now - s.last_refill < s.refill_period) : s.refill now = s := by
  unfold RateLimiter.refill
  rw [if_neg (not_le.mpr h)]

/-- Claim C1 (amended): when at least one `refill_period` has elapsed, the
refill step sets `tokens` to
`min capacity (tokens + ⌊elapsed / refill_period * refill_rate⌋)` — the floor
of the product `periods * refill_rate`, not `⌊periods⌋ * refill_rate` — and
advances `last_refill` to `now`; when less than one period has elapsed it
leaves the state unchanged. -/
theorem claim_C1_refill_amended (s : RateLimiter) (now : ℚ)
    (hper : 0 < s.refill_period) (hrate : 0 ≤ s.refill_rate) :
    (s.refill_period ≤ now - s.last_refill →
      (s.refill now).tokens =
        min s.capacity (s.tokens + ⌊(now - s.last_refill) / s.refill_period * s.refill_rate⌋) ∧
      (s.refill now).last_refill = now) ∧
    (now - s.last_refill < s.refill_period →
      (s.refill now).tokens = s.tokens ∧ (s.refill now).last_refill = s.last_refill) := by
  constructor
  · intro h
    have hq : 0 ≤ (now - s.last_refill) / s.refill_period * s.refill_rate := by
      apply mul_nonneg _ hrate
      exact div_nonneg (le_trans hper.le h) hper.le
    unfold RateLimiter.refill
    rw [if_pos h]
    exact ⟨by simp [ratTrunc_eq_floor hq], rfl⟩
  · intro h
    rw [RateLimiter.refill_of_lt s now h]
    exact ⟨rfl, rfl⟩

/-- Witness instantiating `claim_C1_refill_amended` at capacity 10, rate 2,
period 1, empty bucket, elapsed 3/2. -/
theorem claim_C1_refill_amended_witness :
    ((⟨10, 2, 1, 0, 0⟩ : RateLimiter).refill (3/2)).tokens =
      min (10 : ℤ) (0 + ⌊((3/2 : ℚ) - 0) / 1 * 2⌋) ∧
    ((⟨10, 2, 1, 0, 0⟩ : RateLimiter).refill (3/2)).last_refill = 3/2 :=
  (claim_C1_refill_amended ⟨10, 2, 1, 0, 0⟩ (3/2) (by norm_num) (by norm_num)).1
    (by norm_num)

/-- Counterexample to claim C1 as stated: with capacity 10, refill_rate 2,
refill_period 1, tokens 0, last_refill 0 and now = 3/2, the code adds
`int(periods * rate) = int(3) = 3` tokens, not
`floor(periods) * rate = 1 * 2 = 2` as the claim states. -/
theorem claim_C1_counterexample :
    (1 : ℚ) ≤ (3/2 : ℚ) - 0 ∧
    ¬ ((((⟨10, 2, 1, 0, 0⟩ : RateLimiter).refill (3/2)).tokens : ℚ) =
        min (10 : ℚ) (0 + (⌊((3/2 : ℚ) - 0) / 1⌋ : ℚ) * 2)) := by
  constructor
  · norm_num
  · norm_num [RateLimiter.refill, ratTrunc]

lemma RateLimiter.refill_tokens_le (s : RateLimiter) (now : ℚ)
    (hc : s.tokens ≤ s.capacity) : (s.refill now).tokens ≤ s.capacity := by
  unfold RateLimiter.refill
  dsimp only
  split
  · exact min_le_left _ _
  · exact hc

lemma RateLimiter.refill_tokens_nonneg (s : RateLimiter) (now : ℚ)
    (hper : 0 < s.refill_period) (hrate : 0 ≤ s.refill_rate)
    (h0 : 0 ≤ s.tokens) (hc : s.tokens ≤ s.capacity) : 0 ≤ (s.refill now).tokens := by
  unfold RateLimiter.refill
  dsimp only
  split
  · rename_i h
    refine le_min (le_trans h0 hc) (add_nonneg h0 (ratTrunc_nonneg ?_))
    exact mul_nonneg (div_nonneg (le_trans hper.le h) hper.le) hrate
  · exact h0

lemma RateLimiter.refill_last_le (s : RateLimiter) (now : ℚ)
    (hper : 0 < s.refill_period) : s.last_refill ≤ (s.refill now).last_refill := by
  unfold RateLimiter.refill
  dsimp only
  split
  · rename_i h
    show s.last_refill ≤ now
    linarith
  · exact le_rfl

/-- Bucket wellformedness: the token count is within `[0, capacity]`. -/
def RateLimiter.Good (s : RateLimiter) : Prop :=
  0 ≤ s.tokens ∧ s.tokens ≤ s.capacity

lemma RateLimiter.acquire_good (s : RateLimiter) (now : ℚ) (req : ℤ)
    (hper : 0 < s.refill_period) (hrate : 0 ≤ s.refill_rate) (hreq : 0 ≤ req)
    (hg : s.Good) :
    ((s.acquire now req).2).Good ∧ s.last_refill ≤ ((s.acquire now req).2).last_refill := by
  have hle := s.refill_tokens_le now hg.2
  have hnn := s.refill_tokens_nonneg now hper hrate hg.1 hg.2
  have hlast := s.refill_last_le now hper
  unfold RateLimiter.acquire
  dsimp only
  split
  · rename_i h
    refine ⟨⟨?_, ?_⟩, ?_⟩
    · show 0 ≤ (s.refill now).tokens - req
      omega
    · show (s.refill now).tokens - req ≤ (s.refill now).capacity
      rw [RateLimiter.refill_capacity]
      omega
    · exact hlast
  · refine ⟨⟨hnn, ?_⟩, hlast⟩
    rw [RateLimiter.refill_capacity]
    exact hle

/-- Successive `acquire` calls on a bucket, each given by a `(now, requested)`
pair, keeping only the final state. -/
def foldAcquire (s : RateLimiter) : List (ℚ × ℤ) → RateLimiter
  | [] => s
  | e :: es => foldAcquire ((s.acquire e.1 e.2).2) es

lemma foldAcquire_append (s : RateLimiter) (l1 l2 : List (ℚ × ℤ)) :
    foldAcquire s (l1 ++ l2) = foldAcquire (foldAcquire s l1) l2 := by
  induction l1 generalizing s with
  | nil => rfl
  | cons e es ih => simp [foldAcquire, ih]

lemma foldAcquire_good (s : RateLimiter) (l : List (ℚ × ℤ))
    (hper : 0 < s.refill_period) (hrate : 0 ≤ s.refill_rate)
    (hl : ∀ e ∈ l, 0 ≤ e.2) (hg : s.Good) :
    (foldAcquire s l).Good ∧ s.last_refill ≤ (foldAcquire s l).last_refill ∧
    (foldAcquire s l).capacity = s.capacity ∧
    (foldAcquire s l).refill_rate = s.refill_rate ∧
    (foldAcquire s l).refill_period = s.refill_period := by
  induction l generalizing s with
  | nil => exact ⟨hg, le_rfl, rfl, rfl, rfl⟩
  | cons e es ih =>
    have hstep := s.acquire_good e.1 e.2 hper hrate (hl e (by simp)) hg
    have hrec := ih ((s.acquire e.1 e.2).2)
      (by rw [RateLimiter.acquire_period_eq]; exact hper)
      (by rw [RateLimiter.acquire_rate_eq]; exact hrate)
      (fun x hx => hl x (by simp [hx])) hstep.1
    refine ⟨hrec.1, le_trans hstep.2 hrec.2.1, ?_, ?_, ?_⟩
    · rw [show foldAcquire s (e :: es) = foldAcquire ((s.acquire e.1 e.2).2) es from rfl,
        hrec.2.2.1, RateLimiter.acquire_capacity]
    · rw [show foldAcquire s (e :: es) = foldAcquire ((s.acquire e.1 e.2).2) es from rfl,
        hrec.2.2.2.1, RateLimiter.acquire_rate_eq]
    · rw [show foldAcquire s (e :: es) = foldAcquire ((s.acquire e.1 e.2).2) es from rfl,
        hrec.2.2.2.2, RateLimiter.acquire_period_eq]

/-- Claim C2 (amended): starting from a freshly constructed bucket with
positive capacity, positive refill period and nonnegative refill rate, for
every sequence of `acquire` calls whose requested amounts are all
nonnegative, after every prefix of the sequence the token count lies in
`[0, capacity]`, and `last_refill` is non-decreasing from each prefix to the
next. -/
theorem claim_C2_bucket_bound_amended (cap : ℤ) (rate period t : ℚ)
    (events : List (ℚ × ℤ)) (n : ℕ)
    (hcap : 0 < cap) (hrate : 0 ≤ rate) (hper : 0 < period)
    (hreq : ∀ e ∈ events, 0 ≤ e.2) :
    0 ≤ (foldAcquire (mkRateLimiter cap rate period t) (events.take n)).tokens ∧
    (foldAcquire (mkRateLimiter cap rate period t) (events.take n)).tokens ≤ cap ∧
    (foldAcquire (mkRateLimiter cap rate period t) (events.take n)).last_refill ≤
      (foldAcquire (mkRateLimiter cap rate period t) (events.take (n + 1))).last_refill := by
  have hbase : (mkRateLimiter cap rate period t).Good := ⟨hcap.le, le_rfl⟩
  have hfold := foldAcquire_good (mkRateLimiter cap rate period t) (events.take n)
    hper hrate (fun e he => hreq e (List.mem_of_mem_take he)) hbase
  refine ⟨hfold.1.1, le_trans hfold.1.2 (le_of_eq hfold.2.2.1), ?_⟩
  rw [List.take_succ, foldAcquire_append]
  cases hget : events[n]? with
  | none => simp [foldAcquire]
  | some e =>
    have hstep := RateLimiter.acquire_good
      (foldAcquire (mkRateLimiter cap rate period t) (events.take n)) e.1 e.2
      (by rw [hfold.2.2.2.2]; exact hper)
      (by rw [hfold.2.2.2.1]; exact hrate)
      (hreq e (List.getElem?_mem hget)) hfold.1
    simpa [foldAcquire, Option.toList] using hstep.2

/-- Witness instantiating `claim_C2_bucket_bound_amended` on a capacity-2
bucket and the single call `acquire(1)` at time 0. -/
theorem claim_C2_bucket_bound_amended_witness :
    0 ≤ (foldAcquire (mkRateLimiter 2 1 1 0) ([(0, 1)].take 1)).tokens ∧
    (foldAcquire (mkRateLimiter 2 1 1 0) ([(0, 1)].take 1)).tokens ≤ 2 ∧
    (foldAcquire (mkRateLimiter 2 1 1 0) ([(0, 1)].take 1)).last_refill ≤
      (foldAcquire (mkRateLimiter 2 1 1 0) ([(0, 1)].take 2)).last_refill :=
  claim_C2_bucket_bound_amended 2 1 1 0 [(0, 1)] 1 (by norm_num) (by norm_num)
    (by norm_num)
    (by intro e he; rw [List.mem_singleton] at he; subst he; norm_num)

/-- Counterexample to claim C2 as stated: the claim quantifies over *any*
tokens-requested argument, but `acquire(-1)` on a freshly constructed bucket
of capacity 1 is granted (since `tokens = 1 >= -1`) and the deduction
`tokens -= -1` raises the token count to 2, exceeding the capacity. -/
theorem claim_C2_counterexample :
    0 < (mkRateLimiter 1 1 1 0).capacity ∧
    (mkRateLimiter 1 1 1 0).capacity <
      (foldAcquire (mkRateLimiter 1 1 1 0) [(0, -1)]).tokens := by
  constructor
  · norm_num [mkRateLimiter]
  · norm_num [mkRateLimiter, foldAcquire, RateLimiter.acquire, RateLimiter.refill, ratTrunc]

/-- Successive `acquire` calls for a fixed request amount, one call per entry
of the list of call times, collecting the returned booleans. -/
def runAcquiresAt (s : RateLimiter) (req : ℤ) : List ℚ → List Bool × RateLimiter
  | [] => ([], s)
  | x :: xs =>
    let r := s.acquire x req
    let rest := runAcquiresAt r.2 req xs
    (r.1 :: rest.1, rest.2)

/-- When no time given to `acquire` triggers a refill, a run of `acquire(1)`
calls grants exactly as many calls as there are tokens: the first
`min tokens calls` answers are `true`, the rest are `false`, and the final
state only differs in the token count. -/
lemma runAcquiresAt_ones (s : RateLimiter) (k : ℕ) (times : List ℚ)
    (htimes : ∀ x ∈ times, x - s.last_refill < s.refill_period)
    (hk : s.tokens = (k : ℤ)) :
    runAcquiresAt s 1 times =
      (List.replicate (min k times.length) true ++
        List.replicate (times.length - k) false,
       { s with tokens := ((k - min k times.length : ℕ) : ℤ) }) := by
  induction times generalizing s k with
  | nil =>
    simp only [runAcquiresAt, List.length_nil, Nat.min_zero, Nat.zero_sub,
      List.replicate_zero, List.nil_append, Nat.sub_zero]
    rw [← hk]
  | cons x xs ih =>
    have hnorefill : s.refill x = s :=
      RateLimiter.refill_of_lt s x (htimes x (by simp))
    have hxs : ∀ y ∈ xs, y - s.last_refill < s.refill_period :=
      fun y hy => htimes y (by simp [hy])
    cases k with
    | zero =>
      have hdeny : s.acquire x 1 = (false, s) := by
        unfold RateLimiter.acquire
        dsimp only
        rw [hnorefill, if_neg (by omega)]
      have hrec := ih s 0 hxs hk
      simp only [runAcquiresAt, hdeny, hrec, List.length_cons, Nat.min_zero,
        Nat.zero_min, Nat.zero_sub, List.replicate_zero, List.nil_append,
        Nat.sub_zero, List.replicate_succ]
    | succ m =>
      have hgrant : s.acquire x 1 = (true, { s with tokens := (m : ℤ) }) := by
        unfold RateLimiter.acquire
        dsimp only
        rw [hnorefill, if_pos (by omega)]
        refine Prod.ext rfl ?_
        show ({ s with tokens := s.tokens - 1 } : RateLimiter) = _
        rw [hk]
        congr 1
        omega
      have hrec := ih { s with tokens := (m : ℤ) } m hxs rfl
      simp only [runAcquiresAt, hgrant, hrec, List.length_cons]
      have h1 : min (m + 1) (xs.length + 1) = min m xs.length + 1 := by omega
      have h2 : xs.length + 1 - (m + 1) = xs.length - m := by omega
      have h3 : m + 1 - (min m xs.length + 1) = m - min m xs.length := by omega
      rw [h1, h2, h3, List.replicate_succ, List.cons_append]

/-- Claim C3: after `reset` to a positive capacity `C`, with all calls at the
reset time (no time elapsing), the first `C` `acquire(1)` calls return `true`
and the `(C+1)`-th returns `false`, leaving zero tokens — the denied call does
not deduct. -/
theorem claim_C3_admission (C : ℕ) (hC : 0 < C) (rate period t : ℚ)
    (hper : 0 < period) (tk : ℤ) (lr : ℚ) :
    runAcquiresAt ((⟨(C : ℤ), rate, period, tk, lr⟩ : RateLimiter).reset t) 1
        (List.replicate (C + 1) t) =
      (List.replicate C true ++ [false],
       (⟨(C : ℤ), rate, period, 0, t⟩ : RateLimiter)) := by
  have h := runAcquiresAt_ones
    ((⟨(C : ℤ), rate, period, tk, lr⟩ : RateLimiter).reset t) C
    (List.replicate (C + 1) t)
    (by
      intro x hx
      rw [List.eq_of_mem_replicate hx]
      show t - t < period
      linarith)
    rfl
  rw [h]
  simp only [List.length_replicate]
  have e1 : min C (C + 1) = C := by omega
  have e2 : C + 1 - C = 1 := by omega
  rw [e1, e2, Nat.sub_self, List.replicate_one]
  rfl

/-- Witness instantiating `claim_C3_admission` with capacity 2 and junk
pre-reset state. -/
theorem claim_C3_admission_witness :
    runAcquiresAt ((⟨2, 1, 1, 5, 3⟩ : RateLimiter).reset 0) 1
        (List.replicate 3 0) =
      (List.replicate 2 true ++ [false], (⟨2, 1, 1, 0, 0⟩ : RateLimiter)) :=
  claim_C3_admission 2 (by norm_num) 1 1 0 (by norm_num) 5 3

/-- Claim C4: N callers each requesting one token from a bucket of capacity K
(tokens = K), with K < N and no call time triggering a refill.  Concurrent
execution is modelled by its serialization: the lock in `acquire` makes each
refill-check-deduct sequence atomic, so any concurrent execution coincides
with some sequential order of the N calls.  Exactly K calls are granted and
N - K are denied. -/
theorem claim_C4_no_double_spend (K N : ℕ) (hKN : K < N) (rate period t : ℚ)
    (hper : 0 < period) (times : List ℚ) (hlen : times.length = N)
    (hwin : ∀ x ∈ times, x - t < period) :
    ((runAcquiresAt (⟨(K : ℤ), rate, period, (K : ℤ), t⟩ : RateLimiter) 1 times).1.count
        true = K) ∧
    ((runAcquiresAt (⟨(K : ℤ), rate, period, (K : ℤ), t⟩ : RateLimiter) 1 times).1.count
        false = N - K) := by
  have h := runAcquiresAt_ones (⟨(K : ℤ), rate, period, (K : ℤ), t⟩ : RateLimiter) K
    times (by intro x hx; exact hwin x hx) rfl
  rw [h, hlen]
  constructor
  · simp [List.count_append, List.count_replicate, List.count_replicate_self]
    omega
  · simp [List.count_append, List.count_replicate, List.count_replicate_self]

/-- An operation on the bucket: an `acquire(now, req)` call or a `reset(now)`. -/
inductive BucketOp where
  | acq : ℚ → ℤ → BucketOp
  | res : ℚ → BucketOp

/-- An operation requests a nonnegative token amount (resets trivially so). -/
def BucketOp.reqOk : BucketOp → Prop
  | .acq _ r => 0 ≤ r
  | .res _ => True

def applyOp (s : RateLimiter) : BucketOp → RateLimiter
  | .acq now req => (s.acquire now req).2
  | .res now => s.reset now

def applyOps (s : RateLimiter) : List BucketOp → RateLimiter
  | [] => s
  | op :: ops => applyOps (applyOp s op) ops

lemma applyOp_good (s : RateLimiter) (op : BucketOp)
    (hper : 0 < s.refill_period) (hrate : 0 ≤ s.refill_rate)
    (hop : op.reqOk) (hg : s.Good) :
    (applyOp s op).Good ∧ (applyOp s op).capacity = s.capacity ∧
    (applyOp s op).refill_rate = s.refill_rate ∧
    (applyOp s op).refill_period = s.refill_period := by
  cases op with
  | acq now req =>
    exact ⟨(s.acquire_good now req hper hrate hop hg).1, by simp [applyOp],
      by simp [applyOp], by simp [applyOp]⟩
  | res now =>
    exact ⟨⟨le_trans hg.1 hg.2, le_rfl⟩, rfl, rfl, rfl⟩

lemma applyOps_good (s : RateLimiter) (ops : List BucketOp)
    (hper : 0 < s.refill_period) (hrate : 0 ≤ s.refill_rate)
    (hops : ∀ op ∈ ops, op.reqOk) (hg : s.Good) :
    (applyOps s ops).Good ∧ (applyOps s ops).capacity = s.capacity ∧
    (applyOps s ops).refill_rate = s.refill_rate ∧
    (applyOps s ops).refill_period = s.refill_period := by
  induction ops generalizing s with
  | nil => exact ⟨hg, rfl, rfl, rfl⟩
  | cons op ops ih =>
    have hstep := applyOp_good s op hper hrate (hops op (by simp)) hg
    have hrec := ih (applyOp s op) (by rw [hstep.2.2.2]; exact hper)
      (by rw [hstep.2.2.1]; exact hrate)
      (fun x hx => hops x (by simp [hx])) hstep.1
    refine ⟨hrec.1, ?_, ?_, ?_⟩
    · rw [show applyOps s (op :: ops) = applyOps (applyOp s op) ops from rfl,
        hrec.2.1, hstep.2.1]
    · rw [show applyOps s (op :: ops) = applyOps (applyOp s op) ops from rfl,
        hrec.2.2.1, hstep.2.2.1]
    · rw [show applyOps s (op :: ops) = applyOps (applyOp s op) ops from rfl,
        hrec.2.2.2, hstep.2.2.2]

/-- Claim C5 (amended): in every state reachable from a freshly constructed
bucket (positive capacity, nonnegative refill rate, positive refill period)
by `acquire` calls with nonnegative requested amounts, `reset` calls, and the
elapsed-time refills they perform, an `acquire` requesting strictly more than
`capacity` tokens is denied. -/
theorem claim_C5_overcapacity_amended (cap : ℤ) (rate period t : ℚ)
    (ops : List BucketOp) (now : ℚ) (req : ℤ)
    (hcap : 0 < cap) (hrate : 0 ≤ rate) (hper : 0 < period)
    (hops : ∀ op ∈ ops, op.reqOk) (hreq : cap < req) :
    ((applyOps (mkRateLimiter cap rate period t) ops).acquire now req).1 = false := by
  have hall := applyOps_good (mkRateLimiter cap rate period t) ops hper hrate hops
    ⟨hcap.le, le_rfl⟩
  have htok : ((applyOps (mkRateLimiter cap rate period t) ops).refill now).tokens ≤
      (applyOps (mkRateLimiter cap rate period t) ops).capacity :=
    RateLimiter.refill_tokens_le _ now hall.1.2
  have hlt : ((applyOps (mkRateLimiter cap rate period t) ops).refill now).tokens < req :=
    lt_of_le_of_lt (le_trans htok (le_of_eq hall.2.1)) hreq
  unfold RateLimiter.acquire
  dsimp only
  rw [if_neg (not_le.mpr hlt)]

/-- Witness instantiating `claim_C5_overcapacity_amended`: after one granted
`acquire(1)` on a capacity-1 bucket, a request for 2 tokens at a much later
time is still denied. -/
theorem claim_C5_overcapacity_amended_witness :
    ((applyOps (mkRateLimiter 1 1 1 0) [BucketOp.acq 0 1]).acquire 6 2).1 = false :=
  claim_C5_overcapacity_amended 1 1 1 0 [BucketOp.acq 0 1] 6 2 (by norm_num)
    (by norm_num) (by norm_num)
    (by
      intro op hop
      rw [List.mem_singleton] at hop
      subst hop
      show (0 : ℤ) ≤ 1
      norm_num)
    (by norm_num)

/-- Counterexample to claim C5 as stated: the state reached by the single call
`acquire(-5)` (a legal `int` argument) on a fresh capacity-1 bucket holds 6
tokens, and from it `acquire(2)` — a request strictly above capacity — is
granted. -/
theorem claim_C5_counterexample :
    (mkRateLimiter 1 1 1 0).capacity < 2 ∧
    ((applyOps (mkRateLimiter 1 1 1 0) [BucketOp.acq 0 (-5)]).acquire 0 2).1 = true := by
  constructor
  · norm_num [mkRateLimiter]
  · norm_num [applyOps, applyOp, mkRateLimiter, RateLimiter.acquire,
      RateLimiter.refill, ratTrunc]

/-- Outcome of a run of the `retry` decorator's wrapper (`retry.py`,
`async_wrapper` lines 39-64; `sync_wrapper` is line-for-line identical except
for the sleep primitive): the returned or raised value, the number of times
the wrapped operation was invoked, and the list of backoff sleeps performed.
`Except.error none` is the degenerate `raise last_exception` after a loop over
zero attempts (Python raises `None`). -/
structure RetryResult (ε α : Type) where
  result : Except (Option ε) α
  calls : ℕ
  sleeps : List ℚ
  deriving Repr

/-- The pre-jitter backoff delay of attempt `i`:
`min(backoff_base ** attempt, backoff_max)` (line 53). -/
def backoffDelay (base bmax : ℚ) (attempt : ℕ) : ℚ :=
  min (base ^ attempt) bmax

/-- The retry loop (`for attempt in range(max_attempts)`).  The wrapped
operation is modelled as `f : ℕ → Except ε α` giving the outcome of its i-th
invocation; membership of a raised failure in `on_exceptions` is modelled by
the predicate `retryable`; the random jitter sample of attempt `i` is supplied
by the oracle `jit`. -/
def retryAux (f : ℕ → Except ε α) (retryable : ε → Bool) (maxAttempts : ℕ)
    (base bmax : ℚ) (useJitter : Bool) (jit : ℕ → ℚ) :
    ℕ → ℕ → List ℚ → Option ε → RetryResult ε α
  | 0, attempt, sleeps, last => ⟨.error last, attempt, sleeps⟩
  | remaining + 1, attempt, sleeps, last =>
    match f attempt with
    | .ok a => ⟨.ok a, attempt + 1, sleeps⟩
    | .error e =>
      if retryable e then
        if attempt = maxAttempts - 1 then
          ⟨.error (some e), attempt + 1, sleeps⟩
        else
          let d := backoffDelay base bmax attempt
          let d := if useJitter then d + jit attempt else d
          retryAux f retryable maxAttempts base bmax useJitter jit
            remaining (attempt + 1) (sleeps ++ [d]) (some e)
      else
        ⟨.error (some e), attempt + 1, sleeps⟩

/-- A call through the `retry` decorator's wrapper. -/
def retryCall (f : ℕ → Except ε α) (retryable : ε → Bool) (maxAttempts : ℕ)
    (base bmax : ℚ) (useJitter : Bool) (jit : ℕ → ℚ) : RetryResult ε α :=
  retryAux f retryable maxAttempts base bmax useJitter jit maxAttempts 0 [] none

/-- Claim C6: with `max_attempts = 3` and an operation raising a retryable
failure on every invocation, the operation is invoked exactly 3 times and the
failure raised by the third (final) invocation is propagated unchanged. -/
theorem claim_C6_terminal_propagation {ε α : Type} (f : ℕ → Except ε α)
    (retryable : ε → Bool) (g : ℕ → ε)
    (hf : ∀ i, f i = .error (g i)) (hr : ∀ i, retryable (g i) = true)
    (base bmax : ℚ) (useJitter : Bool) (jit : ℕ → ℚ) :
    (retryCall f retryable 3 base bmax useJitter jit).result = .error (some (g 2)) ∧
    (retryCall f retryable 3 base bmax useJitter jit).calls = 3 := by
  simp [retryCall, retryAux, hf, hr]

/-- Witness instantiating `claim_C6_terminal_propagation` with the operation
that raises failure `i` on its i-th invocation, all failures retryable. -/
theorem claim_C6_terminal_propagation_witness :
    (retryCall (fun i => (Except.error i : Except ℕ ℕ)) (fun _ => true) 3
        2 60 true (fun _ => 0)).result = .error (some 2) ∧
    (retryCall (fun i => (Except.error i : Except ℕ ℕ)) (fun _ => true) 3
        2 60 true (fun _ => 0)).calls = 3 :=
  claim_C6_terminal_propagation (fun i => (Except.error i : Except ℕ ℕ))
    (fun _ => true) (fun i => i) (fun _ => rfl) (fun _ => rfl) 2 60 true (fun _ => 0)

/-- Claim C7: an operation whose first invocation raises a failure outside
`on_exceptions` is invoked exactly once, no backoff sleep occurs, and the
failure is propagated unchanged. -/
theorem claim_C7_nonretryable_short_circuit {ε α : Type} (f : ℕ → Except ε α)
    (retryable : ε → Bool) (maxAttempts : ℕ) (hm : 1 ≤ maxAttempts) (e : ε)
    (hf : f 0 = .error e) (hr : retryable e = false)
    (base bmax : ℚ) (useJitter : Bool) (jit : ℕ → ℚ) :
    retryCall f retryable maxAttempts base bmax useJitter jit =
      ⟨.error (some e), 1, []⟩ := by
  obtain ⟨r, hrem⟩ : ∃ r, maxAttempts = r + 1 := ⟨maxAttempts - 1, by omega⟩
  unfold retryCall
  rw [hrem]
  simp [retryAux, hf, hr]

/-- Witness instantiating `claim_C7_nonretryable_short_circuit` with a
non-retryable failure on the first invocation and `max_attempts = 3`. -/
theorem claim_C7_nonretryable_short_circuit_witness :
    retryCall (fun _ => (Except.error 7 : Except ℕ ℕ)) (fun _ => false) 3
        2 60 true (fun _ => 0) = ⟨.error (some 7), 1, []⟩ :=
  claim_C7_nonretryable_short_circuit (fun _ => (Except.error 7 : Except ℕ ℕ))
    (fun _ => false) 3 (by norm_num) 7 rfl rfl 2 60 true (fun _ => 0)

/-- Claim C8 (amended): for every configuration and attempt index `i`, the
pre-jitter delay equals `min(backoff_base ** i, backoff_max)` and never
exceeds `backoff_max`; provided `backoff_base ≥ 1`, it is non-decreasing in
the attempt index (for a base below 1 the delays decrease). -/
theorem claim_C8_backoff_cap_amended (base bmax : ℚ) (i : ℕ) :
    backoffDelay base bmax i = min (base ^ i) bmax ∧
    backoffDelay base bmax i ≤ bmax ∧
    (1 ≤ base → backoffDelay base bmax i ≤ backoffDelay base bmax (i + 1)) := by
  refine ⟨rfl, min_le_right _ _, fun hbase => ?_⟩
  exact min_le_min (pow_le_pow_right₀ hbase (Nat.le_succ i)) le_rfl

/-- Witness instantiating `claim_C8_backoff_cap_amended` at base 2, cap 60,
attempt 3, discharging the `1 ≤ base` premise of the monotonicity part. -/
theorem claim_C8_backoff_cap_amended_witness :
    backoffDelay 2 60 3 = min ((2 : ℚ) ^ 3) 60 ∧
    backoffDelay 2 60 3 ≤ 60 ∧
    backoffDelay 2 60 3 ≤ backoffDelay 2 60 4 :=
  ⟨(claim_C8_backoff_cap_amended 2 60 3).1,
   (claim_C8_backoff_cap_amended 2 60 3).2.1,
   (claim_C8_backoff_cap_amended 2 60 3).2.2 (by norm_num)⟩

/-- Counterexample to claim C8 as stated: nothing in the code constrains
`backoff_base`; with `backoff_base = 1/2` the computed delay strictly
decreases from attempt 0 to attempt 1, so the delay sequence is not
non-decreasing for every configuration. -/
theorem claim_C8_counterexample :
    backoffDelay (1/2) 60 1 < backoffDelay (1/2) 60 0 := by
  norm_num [backoffDelay]

/-- State of `IPRateLimiter` from `rate_limiting.py`: the per-address request
log is a total function from addresses to timestamp lists (the `defaultdict`
reads a missing key as the empty list, and the cleanup sweep's deletion of an
emptied key is observationally setting it to the empty list). -/
structure IPRateLimiter where
  requests_per_minute : ℕ
  cleanup_interval : ℚ
  requests : String → List ℚ
  last_cleanup : ℚ

/-- `IPRateLimiter.__init__`: empty log, `_last_cleanup` set to now. -/
def mkIPRateLimiter (rpm : ℕ) (ci now : ℚ) : IPRateLimiter :=
  { requests_per_minute := rpm
    cleanup_interval := ci
    requests := fun _ => []
    last_cleanup := now }

/-- `IPRateLimiter._cleanup_old_requests` (lines 151-166): prune every
address's log to entries after the cutoff. -/
def cleanupOld (requests : String → List ℚ) (cutoff : ℚ) : String → List ℚ :=
  fun ip => (requests ip).filter (fun τ => decide (cutoff < τ))

/-- `IPRateLimiter.is_allowed` (lines 115-149): optional periodic sweep, then
prune this address's log to the trailing 60 seconds; deny (recording nothing)
when the pruned count reaches `requests_per_minute`, else record `now` and
grant. -/
def IPRateLimiter.is_allowed (s : IPRateLimiter) (ip : String) (now : ℚ) :
    Bool × IPRateLimiter :=
  let cutoff := now - 60
  let s1 :=
    if s.cleanup_interval < now - s.last_cleanup then
      { s with requests := cleanupOld s.requests cutoff, last_cleanup := now }
    else s
  let recent := (s1.requests ip).filter (fun τ => decide (cutoff < τ))
  if s1.requests_per_minute ≤ recent.length then
    (false, s1)
  else
    (true, { s1 with requests := fun a => if a = ip then recent ++ [now] else s1.requests a })

/-- Successive `is_allowed` calls for one address, one call per listed time. -/
def runAllowed (s : IPRateLimiter) (ip : String) : List ℚ → List Bool × IPRateLimiter
  | [] => ([], s)
  | t :: ts =>
    let r := s.is_allowed ip t
    let rest := runAllowed r.2 ip ts
    (r.1 :: rest.1, rest.2)

lemma runAllowed_singleton (s : IPRateLimiter) (ip : String) (t : ℚ) :
    runAllowed s ip [t] = ([(s.is_allowed ip t).1], (s.is_allowed ip t).2) := rfl

lemma filter_cutoff_replicate (now : ℚ) (k : ℕ) :
    (List.replicate k now).filter (fun τ => decide (now - 60 < τ)) =
      List.replicate k now := by
  apply List.filter_eq_self.mpr
  intro b hb
  rw [List.eq_of_mem_replicate hb]
  simp only [decide_eq_true_eq]
  linarith

lemma IPRateLimiter.is_allowed_grant (s : IPRateLimiter) (a : String) (now : ℚ)
    (k : ℕ) (hrec : s.requests a = List.replicate k now)
    (hcl : now - s.last_cleanup ≤ s.cleanup_interval)
    (hlt : k < s.requests_per_minute) :
    s.is_allowed a now =
      (true, { s with requests :=
        fun x => if x = a then List.replicate (k + 1) now else s.requests x }) := by
  unfold IPRateLimiter.is_allowed
  dsimp only
  rw [if_neg (not_lt.mpr hcl), hrec, filter_cutoff_replicate,
    if_neg (by rw [List.length_replicate]; omega), ← List.replicate_succ']

lemma IPRateLimiter.is_allowed_deny (s : IPRateLimiter) (a : String) (now : ℚ)
    (k : ℕ) (hrec : s.requests a = List.replicate k now)
    (hcl : now - s.last_cleanup ≤ s.cleanup_interval)
    (hge : s.requests_per_minute ≤ k) :
    s.is_allowed a now = (false, s) := by
  unfold IPRateLimiter.is_allowed
  dsimp only
  rw [if_neg (not_lt.mpr hcl), hrec, filter_cutoff_replicate,
    if_pos (by rw [List.length_replicate]; omega)]

/-- A run of `n` same-second `is_allowed` calls for one address, starting
under the ceiling, grants all of them and extends only that address's log. -/
lemma runAllowed_grants (s : IPRateLimiter) (a : String) (now : ℚ) (n k : ℕ)
    (hrec : s.requests a = List.replicate k now)
    (hcl : now - s.last_cleanup ≤ s.cleanup_interval)
    (hcap : k + n ≤ s.requests_per_minute) :
    (runAllowed s a (List.replicate n now)).1 = List.replicate n true ∧
    (runAllowed s a (List.replicate n now)).2.requests a = List.replicate (k + n) now ∧
    (∀ x, x ≠ a → (runAllowed s a (List.replicate n now)).2.requests x = s.requests x) ∧
    (runAllowed s a (List.replicate n now)).2.requests_per_minute = s.requests_per_minute ∧
    (runAllowed s a (List.replicate n now)).2.cleanup_interval = s.cleanup_interval ∧
    (runAllowed s a (List.replicate n now)).2.last_cleanup = s.last_cleanup := by
  induction n generalizing s k with
  | zero =>
    refine ⟨rfl, ?_, fun x _ => rfl, rfl, rfl, rfl⟩
    show s.requests a = List.replicate (k + 0) now
    rw [hrec]
    rfl
  | succ n ih =>
    have hg := s.is_allowed_grant a now k hrec hcl (by omega)
    have hstep : runAllowed s a (List.replicate (n + 1) now) =
        ((s.is_allowed a now).1 ::
          (runAllowed (s.is_allowed a now).2 a (List.replicate n now)).1,
         (runAllowed (s.is_allowed a now).2 a (List.replicate n now)).2) := rfl
    have hih := ih { s with requests :=
        fun x => if x = a then List.replicate (k + 1) now else s.requests x } (k + 1)
      (by
        show (if a = a then List.replicate (k + 1) now else s.requests a) =
          List.replicate (k + 1) now
        rw [if_pos rfl])
      hcl
      (by show k + 1 + n ≤ s.requests_per_minute; omega)
    rw [hstep, hg]
    dsimp only
    refine ⟨?_, ?_, ?_, ?_, ?_, ?_⟩
    · rw [hih.1, List.replicate_succ]
    · rw [hih.2.1, show k + 1 + n = k + (n + 1) from by omega]
    · intro x hx
      rw [hih.2.2.1 x hx]
      dsimp only
      rw [if_neg hx]
    · exact hih.2.2.2.1
    · exact hih.2.2.2.2.1
    · exact hih.2.2.2.2.2

/-- Claim C9: with `requests_per_minute = 5`, six same-second `is_allowed`
calls for address `a` on a fresh limiter yield five grants then a denial, the
denial records no timestamp, and a different address `b` is unaffected: its
log stays empty through the six calls and its own subsequent call is granted
independently. -/
theorem claim_C9_ip_window (a b : String) (hab : b ≠ a) (ci t0 now : ℚ)
    (hcl : now - t0 ≤ ci) :
    (runAllowed (mkIPRateLimiter 5 ci t0) a (List.replicate 6 now)).1 =
      List.replicate 5 true ++ [false] ∧
    (runAllowed (mkIPRateLimiter 5 ci t0) a (List.replicate 6 now)).2.requests a =
      List.replicate 5 now ∧
    (runAllowed (mkIPRateLimiter 5 ci t0) a (List.replicate 6 now)).2.requests b = [] ∧
    ((runAllowed (mkIPRateLimiter 5 ci t0) a (List.replicate 6 now)).2.is_allowed b now).1 =
      true ∧
    ((runAllowed (mkIPRateLimiter 5 ci t0) a
        (List.replicate 6 now)).2.is_allowed b now).2.requests b = [now] := by
  have h5 := runAllowed_grants (mkIPRateLimiter 5 ci t0) a now 5 0 rfl hcl
    (by show 0 + 5 ≤ 5; norm_num)
  have hsplit : List.replicate 6 now = List.replicate 5 now ++ [now] :=
    List.replicate_succ' 5 now
  have happ : runAllowed (mkIPRateLimiter 5 ci t0) a (List.replicate 5 now ++ [now]) =
      ((runAllowed (mkIPRateLimiter 5 ci t0) a (List.replicate 5 now)).1 ++
        (runAllowed ((runAllowed (mkIPRateLimiter 5 ci t0) a (List.replicate 5 now)).2)
          a [now]).1,
       (runAllowed ((runAllowed (mkIPRateLimiter 5 ci t0) a (List.replicate 5 now)).2)
          a [now]).2) := by
    generalize (mkIPRateLimiter 5 ci t0) = s
    induction (List.replicate 5 now) generalizing s with
    | nil => rfl
    | cons x xs ih => simp [runAllowed, ih]
  have hclr : now -
      (runAllowed (mkIPRateLimiter 5 ci t0) a (List.replicate 5 now)).2.last_cleanup ≤
      (runAllowed (mkIPRateLimiter 5 ci t0) a (List.replicate 5 now)).2.cleanup_interval := by
    rw [h5.2.2.2.2.1, h5.2.2.2.2.2]
    exact hcl
  have hdeny := IPRateLimiter.is_allowed_deny
    ((runAllowed (mkIPRateLimiter 5 ci t0) a (List.replicate 5 now)).2) a now 5
    h5.2.1 hclr (by rw [h5.2.2.2.1]; exact le_refl 5)
  have h6 : runAllowed ((runAllowed (mkIPRateLimiter 5 ci t0) a (List.replicate 5 now)).2)
      a [now] =
      ([false], (runAllowed (mkIPRateLimiter 5 ci t0) a (List.replicate 5 now)).2) := by
    rw [runAllowed_singleton, hdeny]
  have hbgrant := IPRateLimiter.is_allowed_grant
    ((runAllowed (mkIPRateLimiter 5 ci t0) a (List.replicate 5 now)).2) b now 0
    (by rw [h5.2.2.1 b hab]; rfl) hclr
    (by rw [h5.2.2.2.1]; exact (by norm_num : (0 : ℕ) < 5))
  rw [hsplit, happ, h6, h5.1]
  dsimp only
  refine ⟨rfl, h5.2.1, h5.2.2.1 b hab, ?_, ?_⟩
  · rw [hbgrant]
  · rw [hbgrant]
    dsimp only
    rw [if_pos rfl]
    rfl

/-- Witness instantiating `claim_C9_ip_window` at two concrete distinct
addresses, the default 300-second cleanup interval and both construction and
calls at time 0. -/
theorem claim_C9_ip_window_witness :
    (runAllowed (mkIPRateLimiter 5 300 0) "1.2.3.4" (List.replicate 6 0)).1 =
      List.replicate 5 true ++ [false] ∧
    (runAllowed (mkIPRateLimiter 5 300 0) "1.2.3.4"
      (List.replicate 6 0)).2.requests "1.2.3.4" = List.replicate 5 0 ∧
    (runAllowed (mkIPRateLimiter 5 300 0) "1.2.3.4"
      (List.replicate 6 0)).2.requests "5.6.7.8" = [] ∧
    ((runAllowed (mkIPRateLimiter 5 300 0) "1.2.3.4"
      (List.replicate 6 0)).2.is_allowed "5.6.7.8" 0).1 = true ∧
    ((runAllowed (mkIPRateLimiter 5 300 0) "1.2.3.4"
      (List.replicate 6 0)).2.is_allowed "5.6.7.8" 0).2.requests "5.6.7.8" = [0] :=
  claim_C9_ip_window "1.2.3.4" "5.6.7.8" (by decide) 300 0 0 (by norm_num)

/-- Trace of one call through a function wrapped by `rate_limit_decorator`
(lines 230-254): the outcome of the initial `acquire`, the optional retry
`acquire` after the wait (the code ignores its result), the waited duration,
the number of times the wrapped function is invoked, and the final limiter
state.  `now1` is the clock at the first `acquire`; `now2` the clock at the
retry `acquire` after sleeping. -/
structure RateLimitCallResult where
  firstGranted : Bool
  secondGranted : Option Bool
  waited : Option ℚ
  funcCalls : ℕ
  final : RateLimiter
  deriving Repr

/-- `rate_limit_decorator`'s `wrapper`: if the first `acquire` is denied, wait
`get_wait_time()` and `acquire` again, discarding the result; then invoke the
wrapped function unconditionally. -/
def rateLimitCall (limiter : RateLimiter) (req : ℤ) (now1 now2 : ℚ) :
    RateLimitCallResult :=
  let r1 := limiter.acquire now1 req
  if r1.1 then
    { firstGranted := true, secondGranted := none, waited := none,
      funcCalls := 1, final := r1.2 }
  else
    let w := r1.2.get_wait_time
    let r2 := r1.2.acquire now2 req
    { firstGranted := false, secondGranted := some r2.1, waited := some w,
      funcCalls := 1, final := r2.2 }

/-- Claim C10: a function wrapped by `rate_limit_decorator` is invoked exactly
once per call, whatever the two `acquire` outcomes are; in particular, on a
bucket with 0 tokens, rate 1 and period 10, a request for 3 tokens is denied
by both the initial `acquire` and the post-wait retry `acquire`, yet the
wrapped function still runs — no token was ever granted. -/
theorem claim_C10_decorator_always_invokes :
    (∀ (s : RateLimiter) (req : ℤ) (now1 now2 : ℚ),
      (rateLimitCall s req now1 now2).funcCalls = 1) ∧
    (rateLimitCall ⟨5, 1, 10, 0, 0⟩ 3 0 10).firstGranted = false ∧
    (rateLimitCall ⟨5, 1, 10, 0, 0⟩ 3 0 10).secondGranted = some false ∧
    (rateLimitCall ⟨5, 1, 10, 0, 0⟩ 3 0 10).funcCalls = 1 := by
  refine ⟨?_, ?_, ?_, ?_⟩
  · intro s req now1 now2
    unfold rateLimitCall
    dsimp only
    split <;> rfl
  · norm_num [rateLimitCall, RateLimiter.acquire, RateLimiter.refill, ratTrunc]
  · norm_num [rateLimitCall, RateLimiter.acquire, RateLimiter.refill, ratTrunc,
      RateLimiter.get_wait_time]
  · norm_num [rateLimitCall, RateLimiter.acquire, RateLimiter.refill, ratTrunc,
      RateLimiter.get_wait_time]

/-- Witness instantiating `claim_C4_no_double_spend` with capacity 1 and two
same-instant callers: exactly one grant, one denial. -/
theorem claim_C4_no_double_spend_witness :
    ((runAcquiresAt (⟨(1 : ℤ), 1, 1, (1 : ℤ), 0⟩ : RateLimiter) 1 [0, 0]).1.count
        true = 1) ∧
    ((runAcquiresAt (⟨(1 : ℤ), 1, 1, (1 : ℤ), 0⟩ : RateLimiter) 1 [0, 0]).1.count
        false = 2 - 1) :=
  claim_C4_no_double_spend 1 2 (by norm_num) 1 1 0 (by norm_num) [0, 0] rfl
    (by
      intro x hx
      simp at hx
      rw [hx]
      norm_num)
